import Mathlib

/-!
Verification development for the connect4js engine (`Connect4Game.js`, a
JavaScript port of Keith Pomakis' Connect-4 algorithm in C, whose sources
`c4.c`/`c4.h` are vendored in the repository).

The data model and operations below are a shallow embedding of
`Connect4Game.js`: the board is `board[column][row]` with row 0 at the
bottom, a cell holds `-1` (empty, `this._none`), `0` or `1`; per-player
per-line potential counters live in `stats`, aggregate scores in `score`.
JavaScript numbers are modelled exactly: every quantity the engine
manipulates is an integer that binary64 represents exactly, except for
`Number.MAX_VALUE - depth` inside `_evaluate`, which is modelled with an
explicit round-to-nearest-even step (`roundTop` below).
-/

/-- Game configuration: `cols`/`rows`/`connect` mirror `this._cols`,
`this._rows`, `this._connect` of `Connect4Game`. -/
structure Cfg where
  cols : ℕ
  rows : ℕ
  connect : ℕ
deriving DecidableEq, Repr

/-- The caller contract on geometry (`newGame(width ≥ 1, height ≥ 1, connect ≥ 1)`). -/
def Valid (cfg : Cfg) : Prop :=
  1 ≤ cfg.cols ∧ 1 ≤ cfg.rows ∧ 1 ≤ cfg.connect

instance : DecidablePred Valid := fun _ => by unfold Valid; infer_instance

/-- `this._magicWinningNumber = 1 << this._connect`. -/
def magic (cfg : Cfg) : ℤ :=
  2 ^ cfg.connect

/-- `Connect4Game.prototype._findWinningPlaces`: the closed-form count of
winnable n-in-a-row areas on a `cols × rows` board. -/
def findWinningPlaces (cfg : Cfg) : ℤ :=
  let x : ℤ := cfg.cols
  let y : ℤ := cfg.rows
  let n : ℤ := cfg.connect
  if x < n ∧ y < n then 0
  else if x < n then x * ((y - n) + 1)
  else if y < n then y * ((x - n) + 1)
  else 4*x*y - 3*x*n - 3*y*n + 3*x + 3*y - 4*n + 2*n*n + 2

/-- First pass of `_setupMap`: horizontal win positions, in the order the
`winIndex` counter visits them (`i` over rows, `j` over starting columns,
cells `(j+k, i)`). -/
def horizLines (cfg : Cfg) : List (List (ℕ × ℕ)) :=
  (List.range cfg.rows).flatMap (fun i =>
    (List.range (cfg.cols + 1 - cfg.connect)).map (fun j =>
      (List.range cfg.connect).map (fun k => (j + k, i))))

/-- Second pass of `_setupMap`: vertical win positions (cells `(i, j+k)`). -/
def vertLines (cfg : Cfg) : List (List (ℕ × ℕ)) :=
  (List.range cfg.cols).flatMap (fun i =>
    (List.range (cfg.rows + 1 - cfg.connect)).map (fun j =>
      (List.range cfg.connect).map (fun k => (i, j + k))))

/-- Third pass of `_setupMap`: forward diagonal win positions (cells `(j+k, i+k)`). -/
def fwdDiagLines (cfg : Cfg) : List (List (ℕ × ℕ)) :=
  (List.range (cfg.rows + 1 - cfg.connect)).flatMap (fun i =>
    (List.range (cfg.cols + 1 - cfg.connect)).map (fun j =>
      (List.range cfg.connect).map (fun k => (j + k, i + k))))

/-- Fourth pass of `_setupMap`: backward diagonal win positions; `j` runs
from `cols-1` down to `connect-1`, cells `(j-k, i+k)`. -/
def bwdDiagLines (cfg : Cfg) : List (List (ℕ × ℕ)) :=
  (List.range (cfg.rows + 1 - cfg.connect)).flatMap (fun i =>
    (List.range (cfg.cols + 1 - cfg.connect)).map (fun t =>
      (List.range cfg.connect).map (fun k => (cfg.cols - 1 - t - k, i + k))))

/-- All win lines in `_setupMap` enumeration order; the line with id `w`
is `(allLines cfg).get w`. -/
def allLines (cfg : Cfg) : List (List (ℕ × ℕ)) :=
  horizLines cfg ++ vertLines cfg ++ fwdDiagLines cfg ++ bwdDiagLines cfg

/-- Number of line ids assigned by the four passes of `_setupMap`
(the final value of its `winIndex` counter). -/
def linesCount (cfg : Cfg) : ℕ :=
  (allLines cfg).length

/-- `this.currentState.map[x][y]`: ids of the win lines through cell
`(x, y)`, in increasing id order — exactly the order `_setupMap` pushes
them, since each pass appends the current `winIndex` to every cell of the
line it is visiting. -/
def mapAt (cfg : Cfg) (x y : ℕ) : List ℕ :=
  (((allLines cfg).enum.filter (fun p => (x, y) ∈ p.2)).map Prod.fst)

/-- `this._winningPlaces` as the (nonnegative) array length used to size
the per-player stats arrays in `_setupPlayerStats`. -/
def wpNat (cfg : Cfg) : ℕ :=
  (findWinningPlaces cfg).toNat

/-- One entry of `this._stateStack` (the fields of `currentState` that the
engine reads and writes; `map` is immutable after setup and modelled by the
pure function `mapAt`, `winningCoords` is derived output). -/
structure GameState where
  numberOfPieces : ℕ
  winner : ℤ
  board : List (List ℤ)
  stats0 : List ℤ
  stats1 : List ℤ
  score0 : ℤ
  score1 : ℤ
  tie : Bool
  gameOver : Bool
deriving DecidableEq, Repr

/-- The array `stats[player]`, for player 0 or 1. -/
def statsOf (s : GameState) (player : ℕ) : List ℤ :=
  if player = 0 then s.stats0 else s.stats1

/-- The entry `score[player]` (`scoreOfPlayer`), for player 0 or 1. -/
def scoreOfP (s : GameState) (player : ℕ) : ℤ :=
  if player = 0 then s.score0 else s.score1

/-- `this.currentState.board[x][y]` (out-of-range reads modelled by the
default `0`, which like JavaScript `undefined` is neither `-1` nor `2`). -/
def boardCell (s : GameState) (x y : ℕ) : ℤ :=
  (s.board.getD x []).getD y 0

/-- `score[0] + score[1]`, the quantity of spec property §8 bullet 1. -/
def scoreSum (s : GameState) : ℤ :=
  s.score0 + s.score1

/-- Number of occupied cells of one column (cells whose value is not
`this._none = -1`). -/
def occCol (col : List ℤ) : ℕ :=
  (col.filter (fun v => v ≠ -1)).length

/-- Number of occupied cells of the board. -/
def occupiedCount (s : GameState) : ℕ :=
  (s.board.map occCol).sum

/-- `Connect4Game.prototype.isTie`:
`winner === -1 && numberOfPieces >= cols * rows`. -/
def isTie (cfg : Cfg) (s : GameState) : Bool :=
  s.winner = -1 ∧ cfg.cols * cfg.rows ≤ s.numberOfPieces

/-- `Connect4Game.prototype._goodnessOf`: `score[player] - score[other(player)]`. -/
def goodnessOf (s : GameState) (player : ℕ) : ℤ :=
  scoreOfP s player - scoreOfP s (player ^^^ 1)

/-- The state built by the `Connect4Game` constructor together with
`_setupBoard` and `_setupPlayerStats`: empty board, every potential entry
`1`, both scores `this._winningPlaces`. -/
def initState (cfg : Cfg) : GameState :=
  { numberOfPieces := 0
    winner := -1
    board := List.replicate cfg.cols (List.replicate cfg.rows (-1))
    stats0 := List.replicate (wpNat cfg) 1
    stats1 := List.replicate (wpNat cfg) 1
    score0 := findWinningPlaces cfg
    score1 := findWinningPlaces cfg
    tie := false
    gameOver := false }

/-- Result of the `for` loop of `_updateScore` over the win indices of the
landed cell: the two updated stats arrays, the updated winner marker, and
the accumulated `thisDiff`/`otherDiff`. -/
structure LoopRes where
  sp : List ℤ
  so : List ℤ
  winner : ℤ
  td : ℤ
  od : ℤ
deriving Repr

/-- The loop body of `_updateScore`, iterated over the list of win indices
(`sp` is `stats[player]`, `so` is `stats[otherPlayer]`, `pv` the value
recorded as winner): accumulate each entry into the diffs, double the
player's entry, zero the opponent's, and record the player as winner if
the doubled entry reaches the magic number and no winner exists yet. -/
def updateStatsLoop (m pv : ℤ) : List ℕ → List ℤ → List ℤ → ℤ → LoopRes
  | [], sp, so, winner => ⟨sp, so, winner, 0, 0⟩
  | w :: rest, sp, so, winner =>
      let a := sp.getD w 0
      let b := so.getD w 0
      let r := updateStatsLoop m pv rest (sp.set w (a * 2)) (so.set w 0)
        (if a * 2 = m ∧ winner = -1 then pv else winner)
      ⟨r.sp, r.so, r.winner, r.td + a, r.od + b⟩

/-- The stats/score/winner part of `Connect4Game.prototype._updateScore`,
given that `player` has just placed a piece at column `x`, row `y` (board
and piece count already updated by `_dropPiece`): run the loop over
`map[x][y]`, then `score[player] += thisDiff; score[otherPlayer] -= otherDiff`. -/
def updateScoreCore (cfg : Cfg) (player x y : ℕ) (s : GameState) : GameState :=
  let r := updateStatsLoop (magic cfg) (player : ℤ) (mapAt cfg x y)
    (statsOf s player) (statsOf s (player ^^^ 1)) s.winner
  { s with
    stats0 := if player = 0 then r.sp else r.so
    stats1 := if player = 0 then r.so else r.sp
    score0 := if player = 0 then s.score0 + r.td else s.score0 - r.od
    score1 := if player = 0 then s.score1 - r.od else s.score1 + r.td
    winner := r.winner }

/-- `Connect4Game.prototype._updateScore`: the core update followed by the
trailing `gameOver`/`tie` bookkeeping
(`if (winner > -1 || this.isTie()) { gameOver = true; tie = isTie() }`). -/
def updateScore (cfg : Cfg) (player x y : ℕ) (s : GameState) : GameState :=
  let s2 := updateScoreCore cfg player x y s
  if -1 < s2.winner ∨ isTie cfg s2 = true then
    { s2 with gameOver := true, tie := isTie cfg s2 }
  else s2

/-- The row scan of `_dropPiece`:
`while (col[row] !== this._none && (++row < this._rows));` — the first row
below `rows` holding `-1` (out-of-range reads, like JavaScript `undefined`,
do not match `-1`), or `rows` when the column is full. -/
def findRow (col : List ℤ) (rows : ℕ) : ℕ :=
  ((List.range rows).find? (fun r => col.getD r 0 = -1)).getD rows

/-- `Connect4Game.prototype._dropPiece`: returns the landing row and the
updated state, or `-1` and the unchanged state if the column is full. -/
def dropPiece (cfg : Cfg) (player column : ℕ) (s : GameState) : ℤ × GameState :=
  let col := s.board.getD column []
  let row := findRow col cfg.rows
  if row = cfg.rows then (-1, s)
  else
    let s2 : GameState :=
      { s with
        board := s.board.set column (col.set row (player : ℤ))
        numberOfPieces := s.numberOfPieces + 1 }
    ((row : ℤ), updateScore cfg player column row s2)

/-- Caller-visible states: the initial state followed by any sequence of
drops by players `0`/`1` into valid columns (the other engine entry points
reduce to such drops; `makeMove` rejects out-of-range columns). -/
inductive Reachable (cfg : Cfg) : GameState → Prop
  | init : Reachable cfg (initState cfg)
  | step (p c : ℕ) (s : GameState) : Reachable cfg s → p < 2 → c < cfg.cols →
      Reachable cfg (dropPiece cfg p c s).2

/-- The loop of `_setupDropOrder` / `c4_new_game`: emit the running column,
then offset it by `+i` for odd `i` and `-i` for even `i`. The running
column is a JavaScript number, hence a rational here (`(cols-1)/2` is real
division in `Connect4Game.js`). -/
def dropOrderAux : ℕ → ℕ → ℚ → List ℚ
  | _, 0, _ => []
  | i, rem + 1, column =>
      column :: dropOrderAux (i + 1) rem (column + (if i % 2 = 1 then (i : ℚ) else -(i : ℚ)))

/-- `this._dropOrder` as computed by `Connect4Game.prototype._setupDropOrder`:
starts at `(cols－1)/2` with JavaScript (real) division. -/
def dropOrderJS (cols : ℕ) : List ℚ :=
  dropOrderAux 1 cols (((cols : ℚ) - 1) / 2)

/-- The drop order of the vendored C original (`c4_new_game` in `c4.c`):
identical except that `(size_x-1)/2` is C integer division. -/
def dropOrderCAux : ℕ → ℕ → ℤ → List ℤ
  | _, 0, _ => []
  | i, rem + 1, column =>
      column :: dropOrderCAux (i + 1) rem (column + (if i % 2 = 1 then (i : ℤ) else -(i : ℤ)))

/-- `drop_order` of `c4.c`. -/
def dropOrderC (cols : ℕ) : List ℤ :=
  dropOrderCAux 1 cols (((cols : ℤ) - 1) / 2)

/-- The candidate columns `autoMove`/`_evaluate` iterate over, as natural
column indices: the integer-division drop order. For odd `cols` this is
exactly the JavaScript `this._dropOrder` (its real division `(cols-1)/2`
is then exact — see `dropOrderJS_three` and `dropOrderJS_seven`); for even
`cols` the JavaScript entries are not integers at all, which is the
subject of the drop-order claim. -/
def dropOrderN (cfg : Cfg) : List ℕ :=
  (dropOrderC cfg.cols).map Int.toNat

/-- `Number.MAX_VALUE`, exactly: the largest finite binary64 value
`(2^53 - 1) * 2^971`, written as a numeral so that kernel reduction can
evaluate it (see `jsMaxValue_eq`). -/
def jsMaxValue : ℤ :=
  179769313486231570814527423731704356798070567525844996598917476803157260780028538760589558632766878171540458953514382464234321326889464182768467546703537516986049910576551282076245490090389328944075868508455133942304583236903222948165808559332123348274797826204144723168738177180919299881250404026184124858368

/-- The spacing of binary64 doubles in the top binade `[2^1023, 2^1024)`:
one unit in the last place is `2^971` (see `topUlp_eq`). -/
def topUlp : ℤ :=
  19958403095347198116563727130368385660674512604354575415025472424372118918689640657849579654926357010893424468441924952439724379883935936607391717982848314203200056729510856765175377214443629871826533567445439239933308104551208703888888552684480441575071209068757560416423584952303440099278848

/-- IEEE-754 binary64 round-to-nearest-even for an integer lying in the
top binade `[2^1023, 2^1024)`, where representable doubles are exactly the
multiples of `2^971`. This models the JavaScript subtraction
`Number.MAX_VALUE - depth` of `_evaluate`. -/
def roundTop (v : ℤ) : ℤ :=
  let ulp : ℤ := topUlp
  let q := v / ulp
  let r := v % ulp
  if r * 2 < ulp then q * ulp
  else if ulp < r * 2 then (q + 1) * ulp
  else if q % 2 = 0 then q * ulp else (q + 1) * ulp

/-- The value `_evaluate` assigns to a drop that makes the moving player
the winner: the JavaScript expression `Number.MAX_VALUE - depth`, i.e. the
binary64 rounding of the exact difference. -/
def jsWinValue (depth : ℕ) : ℤ :=
  roundTop (jsMaxValue - depth)

/-- Fuel bound for the `_evaluate` recursion: each recursive call follows a
successful drop, so chains are bounded by the number of board cells. -/
def evalFuel (cfg : Cfg) : ℕ :=
  cfg.cols * cfg.rows + 2

/-- `Connect4Game.prototype._evaluate(player, level, alpha, beta)`.
`depth` is `this._stateStack.length` at entry; the push/pop pair around
each candidate drop is modelled functionally (the popped hypothetical
state is simply discarded). The column loop with its `best`/`maxab`
bookkeeping and beta cutoff (`break` once `best > beta`) is a fold carrying
a `done` flag. `fuel` only forces termination and is never exhausted when
it exceeds the number of empty cells. -/
def evaluate (cfg : Cfg) : ℕ → ℕ → ℕ → ℤ → ℤ → ℕ → GameState → ℤ
  | 0, _, _, _, _, _, _ => 0
  | fuel + 1, player, level, alpha, beta, depth, s =>
      if level = depth then goodnessOf s player
      else
        -((dropOrderN cfg).foldl
          (fun (acc : ℤ × ℤ × Bool) c =>
            let best := acc.1
            let maxab := acc.2.1
            let done := acc.2.2
            if done then acc
            else
              let dr := dropPiece cfg (player ^^^ 1) c s
              if dr.1 < 0 then acc
              else
                let goodness :=
                  if dr.2.winner = ((player ^^^ 1 : ℕ) : ℤ) then jsWinValue depth
                  else evaluate cfg fuel (player ^^^ 1) level (-beta) (-maxab) (depth + 1) dr.2
                if goodness > best then
                  (goodness, (if goodness > maxab then goodness else maxab),
                    decide (goodness > beta))
                else (best, maxab, decide (best > beta)))
          (-jsMaxValue, alpha, false)).1

/-- The root loop of `Connect4Game.prototype.autoMove` over the candidate
columns, with the stream of random tie-break decisions made explicit: a
`true` coin is `Math.floor(Math.random()*2) > 0`. Returns the chosen
`bestColumn` (`-1` when every column is full). Note the short-circuit in
`bestColumn === -1 || Math.floor(Math.random()*2) > 0`: no coin is
consumed while `bestColumn` is `-1`. -/
def rootLoop (cfg : Cfg) (player ai : ℕ) (s : GameState) :
    List ℕ → ℤ → ℤ → List Bool → ℤ
  | [], bestColumn, _, _ => bestColumn
  | c :: rest, bestColumn, bestWorst, coins =>
      let dr := dropPiece cfg player c s
      if dr.1 < 0 then rootLoop cfg player ai s rest bestColumn bestWorst coins
      else if dr.2.winner = (player : ℤ) then (c : ℤ)
      else
        let goodness := evaluate cfg (evalFuel cfg) player ai (-jsMaxValue) (-bestWorst) 2 dr.2
        if goodness > bestWorst then rootLoop cfg player ai s rest (c : ℤ) goodness coins
        else if goodness = bestWorst then
          if bestColumn = -1 then rootLoop cfg player ai s rest (c : ℤ) bestWorst coins
          else
            match coins with
            | [] => rootLoop cfg player ai s rest bestColumn bestWorst []
            | coin :: cs =>
                rootLoop cfg player ai s rest (if coin then (c : ℤ) else bestColumn)
                  bestWorst cs
        else rootLoop cfg player ai s rest bestColumn bestWorst coins

/-- The column `autoMove(player, ai)` selects when the opening shortcut
does not fire: the root loop started with `bestColumn = -1` and
`bestWorst = -Number.MAX_VALUE`, with `ai` clamped to `[0, 20]`. -/
def autoMoveColumn (cfg : Cfg) (player ai : ℕ) (s : GameState) (coins : List Bool) : ℤ :=
  rootLoop cfg player (min ai 20) s (dropOrderN cfg) (-1) (-jsMaxValue) coins

/-- The guard of the opening-book shortcut in `autoMove`:
`numberOfPieces < 2 && cols === 7 && rows === 6 && connect === 4 &&
(numberOfPieces === 0 || board[3][0] !== 2)`. The literal `2` is `C4_NONE`
of the C original; in the JavaScript port empty cells are `-1`. -/
def autoMoveShortcut (cfg : Cfg) (s : GameState) : Bool :=
  s.numberOfPieces < 2 ∧ cfg.cols = 7 ∧ cfg.rows = 6 ∧ cfg.connect = 4 ∧
    (s.numberOfPieces = 0 ∨ boardCell s 3 0 ≠ 2)

/-- `Connect4Game.prototype._clone` on a game state: a deep copy, which in
this value semantics is the identity on every field. -/
def cloneState (s : GameState) : GameState :=
  { numberOfPieces := s.numberOfPieces
    winner := s.winner
    board := s.board
    stats0 := s.stats0
    stats1 := s.stats1
    score0 := s.score0
    score1 := s.score1
    tie := s.tie
    gameOver := s.gameOver }

/-- The state stack, top first (`this._stateStack` reversed;
`currentState` is the head). -/
def StateStack : Type := List GameState

/-- `Connect4Game.prototype._pushState`: push a clone of the current top;
the clone becomes the new current state. -/
def pushState : List GameState → List GameState
  | [] => []
  | s :: rest => cloneState s :: s :: rest

/-- `Connect4Game.prototype._popState`: discard the current top. -/
def popState : List GameState → List GameState
  | [] => []
  | _ :: rest => rest

/-- A drop applied to the current (top) state of the stack, as
`_dropPiece` does through `this.currentState`. -/
def dropTop (cfg : Cfg) (p c : ℕ) : List GameState → List GameState
  | [] => []
  | s :: rest => (dropPiece cfg p c s).2 :: rest

/-- Any sequence of drops applied to the current state of the stack. -/
def applyDrops (cfg : Cfg) (moves : List (ℕ × ℕ)) (st : List GameState) : List GameState :=
  moves.foldl (fun st m => dropTop cfg m.1 m.2 st) st

/-- Pointwise stats invariant: at every index, at least one of the two
entries is `0`, or both are `1`. -/
def PairOk (sp so : List ℤ) : Prop :=
  ∀ i : ℕ, sp.getD i 0 = 0 ∨ so.getD i 0 = 0 ∨ (sp.getD i 0 = 1 ∧ so.getD i 0 = 1)

/-- The per-game-state invariant maintained by every drop: board shape and
cell values, stats array sizes, the score-is-sum-of-potentials identity,
the pointwise potential exclusivity, the piece count, and the winner
marker range. -/
structure StateInv (cfg : Cfg) (s : GameState) : Prop where
  boardLen : s.board.length = cfg.cols
  colLen : ∀ col ∈ s.board, col.length = cfg.rows
  cellsOk : ∀ col ∈ s.board, ∀ v ∈ col, v = -1 ∨ v = 0 ∨ v = 1
  stats0Len : s.stats0.length = wpNat cfg
  stats1Len : s.stats1.length = wpNat cfg
  score0Eq : s.score0 = s.stats0.sum
  score1Eq : s.score1 = s.stats1.sum
  statsPair : PairOk s.stats0 s.stats1
  countEq : s.numberOfPieces = occupiedCount s
  winnerOk : s.winner = -1 ∨ s.winner = 0 ∨ s.winner = 1

/-- Apply a sequence of `(player, column)` drops to a single state. -/
def runDrops (cfg : Cfg) (moves : List (ℕ × ℕ)) (s : GameState) : GameState :=
  moves.foldl (fun st m => (dropPiece cfg m.1 m.2 st).2) s

/-- The standard board: `Connect4Game.settings.defaults` geometry. -/
def cfg7 : Cfg := ⟨7, 6, 4⟩

/-- A 3-wide, 1-high connect-3 board (one winnable line through every cell). -/
def cfg3 : Cfg := ⟨3, 1, 3⟩

/-- A 1-by-1 connect-1 board. -/
def cfg1 : Cfg := ⟨1, 1, 1⟩

/-- A 1-wide, 2-high connect-2 board (fills to a tie in two drops). -/
def cfg12 : Cfg := ⟨1, 2, 2⟩

/-- The standard board after player 0 opens in the center column. -/
def afterCenterDrop : GameState := (dropPiece cfg7 0 3 (initState cfg7)).2

/-- Standard board: player 0 holds `(0,0)`, `(1,0)`, `(2,0)` (three in a row),
player 1 holds `(0,1)`, `(1,1)`. -/
def beforeBlock : GameState :=
  runDrops cfg7 [(0, 0), (1, 0), (0, 1), (1, 1), (0, 2)] (initState cfg7)

/-- `beforeBlock` after player 1 blocks at column 3. -/
def afterBlock : GameState := (dropPiece cfg7 1 3 beforeBlock).2

/-- The 1-by-1 board after its only cell is filled. -/
def sFull : GameState := (dropPiece cfg1 0 0 (initState cfg1)).2

/-- The 1-by-2 board filled by one drop of each player: a tie. -/
def sTie : GameState :=
  (dropPiece cfg12 1 0 (dropPiece cfg12 0 0 (initState cfg12)).2).2

theorem length_horizLines (cfg : Cfg) :
    (horizLines cfg).length = cfg.rows * (cfg.cols + 1 - cfg.connect) := by
  simp [horizLines, Function.comp_def, List.map_const', List.sum_replicate, smul_eq_mul]

theorem length_vertLines (cfg : Cfg) :
    (vertLines cfg).length = cfg.cols * (cfg.rows + 1 - cfg.connect) := by
  simp [vertLines, Function.comp_def, List.map_const', List.sum_replicate, smul_eq_mul]

theorem length_fwdDiagLines (cfg : Cfg) :
    (fwdDiagLines cfg).length = (cfg.rows + 1 - cfg.connect) * (cfg.cols + 1 - cfg.connect) := by
  simp [fwdDiagLines, Function.comp_def, List.map_const', List.sum_replicate, smul_eq_mul]

theorem length_bwdDiagLines (cfg : Cfg) :
    (bwdDiagLines cfg).length = (cfg.rows + 1 - cfg.connect) * (cfg.cols + 1 - cfg.connect) := by
  simp [bwdDiagLines, Function.comp_def, List.map_const', List.sum_replicate, smul_eq_mul]

theorem linesCount_eq (cfg : Cfg) :
    linesCount cfg = cfg.rows * (cfg.cols + 1 - cfg.connect)
      + cfg.cols * (cfg.rows + 1 - cfg.connect)
      + 2 * ((cfg.rows + 1 - cfg.connect) * (cfg.cols + 1 - cfg.connect)) := by
  simp only [linesCount, allLines, List.length_append, length_horizLines, length_vertLines,
    length_fwdDiagLines, length_bwdDiagLines]
  ring

/-- The closed-form `_findWinningPlaces` agrees with the number of line ids
assigned by the explicit four-pass enumeration of `_setupMap`. -/
theorem findWinningPlaces_eq_linesCount (cfg : Cfg) (hv : Valid cfg) :
    findWinningPlaces cfg = (linesCount cfg : ℤ) := by
  obtain ⟨hc, hr, hn⟩ := hv
  rw [linesCount_eq]
  unfold findWinningPlaces
  rcases lt_or_le cfg.cols cfg.connect with hxc | hxc <;>
    rcases lt_or_le cfg.rows cfg.connect with hyc | hyc
  · have ha : cfg.cols + 1 - cfg.connect = 0 := by omega
    have hb : cfg.rows + 1 - cfg.connect = 0 := by omega
    simp only [ha, hb]
    have hx : (cfg.cols : ℤ) < cfg.connect := by exact_mod_cast hxc
    have hy : (cfg.rows : ℤ) < cfg.connect := by exact_mod_cast hyc
    simp [hx, hy]
  · have ha : cfg.cols + 1 - cfg.connect = 0 := by omega
    have hb : cfg.rows + 1 - cfg.connect = cfg.rows + 1 - cfg.connect := rfl
    have hx : (cfg.cols : ℤ) < cfg.connect := by exact_mod_cast hxc
    have hy : ¬ (cfg.rows : ℤ) < cfg.connect := by
      push_neg; exact_mod_cast hyc
    simp only [ha, hx, hy, and_false, if_false, if_true, true_and, and_true]
    have : ((cfg.rows + 1 - cfg.connect : ℕ) : ℤ) = (cfg.rows : ℤ) + 1 - cfg.connect := by
      omega
    push_cast [this]
    ring
  · have hb : cfg.rows + 1 - cfg.connect = 0 := by omega
    have hx : ¬ (cfg.cols : ℤ) < cfg.connect := by
      push_neg; exact_mod_cast hxc
    have hy : (cfg.rows : ℤ) < cfg.connect := by exact_mod_cast hyc
    simp only [hb, hx, hy, false_and, if_false, if_true]
    have : ((cfg.cols + 1 - cfg.connect : ℕ) : ℤ) = (cfg.cols : ℤ) + 1 - cfg.connect := by
      omega
    push_cast [this]
    ring
  · have hx : ¬ (cfg.cols : ℤ) < cfg.connect := by
      push_neg; exact_mod_cast hxc
    have hy : ¬ (cfg.rows : ℤ) < cfg.connect := by
      push_neg; exact_mod_cast hyc
    simp only [hx, hy, false_and, if_false]
    have h1 : ((cfg.cols + 1 - cfg.connect : ℕ) : ℤ) = (cfg.cols : ℤ) + 1 - cfg.connect := by
      omega
    have h2 : ((cfg.rows + 1 - cfg.connect : ℕ) : ℤ) = (cfg.rows : ℤ) + 1 - cfg.connect := by
      omega
    push_cast [h1, h2]
    ring

theorem wpNat_eq_linesCount (cfg : Cfg) (hv : Valid cfg) :
    wpNat cfg = linesCount cfg := by
  rw [wpNat, findWinningPlaces_eq_linesCount cfg hv, Int.toNat_natCast]

theorem getD_set_self_int (l : List ℤ) (i : ℕ) (v : ℤ) (h : i < l.length) :
    (l.set i v).getD i 0 = v := by
  simp [List.getD_eq_getElem?_getD, List.getElem?_set_self h]

theorem getD_set_ne_int (l : List ℤ) {i j : ℕ} (h : i ≠ j) (v : ℤ) :
    (l.set i v).getD j 0 = l.getD j 0 := by
  simp [List.getD_eq_getElem?_getD, List.getElem?_set_ne h]

theorem getD_oor_int (l : List ℤ) {i : ℕ} (h : l.length ≤ i) :
    l.getD i 0 = 0 := by
  simp [List.getD_eq_getElem?_getD, List.getElem?_eq_none h]

theorem getD_set_zero_int (l : List ℤ) (i : ℕ) :
    (l.set i (0 : ℤ)).getD i 0 = 0 := by
  rcases lt_or_le i l.length with h | h
  · exact getD_set_self_int l i 0 h
  · exact getD_oor_int _ (by simpa using h)

theorem sum_set_int (l : List ℤ) (i : ℕ) (v : ℤ) (h : i < l.length) :
    (l.set i v).sum = l.sum - l.getD i 0 + v := by
  induction l generalizing i with
  | nil => simp at h
  | cons a t ih =>
    cases i with
    | zero => simp [List.sum_cons]; ring
    | succ n =>
      have hn : n < t.length := by simpa using h
      simp [List.sum_cons, ih n hn]
      ring

theorem sum_set_nat (l : List ℕ) (i : ℕ) (v : ℕ) (h : i < l.length) :
    (l.set i v).sum + l.getD i 0 = l.sum + v := by
  induction l generalizing i with
  | nil => simp at h
  | cons a t ih =>
    cases i with
    | zero => simp [List.sum_cons]; omega
    | succ n =>
      have hn : n < t.length := by simpa using h
      have h2 := ih n hn
      simp only [List.getD_eq_getElem?_getD, List.getD_cons_succ, List.set_cons_succ,
        List.getElem?_cons_succ, List.sum_cons] at h2 ⊢
      omega

theorem getD_map_occ (l : List (List ℤ)) {c : ℕ} (h : c < l.length) :
    (l.map occCol).getD c 0 = occCol (l.getD c []) := by
  simp [List.getD_eq_getElem?_getD, List.getElem?_eq_getElem, h,
    List.getElem?_map]

theorem occCol_set (col : List ℤ) (i : ℕ) (v : ℤ) (h : i < col.length)
    (hold : col.getD i 0 = -1) (hv : v ≠ -1) :
    occCol (col.set i v) = occCol col + 1 := by
  induction col generalizing i with
  | nil => simp at h
  | cons a t ih =>
    cases i with
    | zero =>
      have ha : a = -1 := by simpa using hold
      simp [occCol, List.filter_cons, ha, hv]
    | succ n =>
      have hn : n < t.length := by simpa using h
      have hold2 : t.getD n 0 = -1 := by simpa using hold
      have := ih n hn hold2
      simp only [List.set_cons_succ, occCol, List.filter_cons] at this ⊢
      split <;> simp_all

theorem usl_sp_length (m pv : ℤ) (ids : List ℕ) (sp so : List ℤ) (w : ℤ) :
    (updateStatsLoop m pv ids sp so w).sp.length = sp.length := by
  induction ids generalizing sp so w with
  | nil => rfl
  | cons a rest ih =>
    simp only [updateStatsLoop]
    rw [ih]
    simp

theorem usl_so_length (m pv : ℤ) (ids : List ℕ) (sp so : List ℤ) (w : ℤ) :
    (updateStatsLoop m pv ids sp so w).so.length = so.length := by
  induction ids generalizing sp so w with
  | nil => rfl
  | cons a rest ih =>
    simp only [updateStatsLoop]
    rw [ih]
    simp

theorem usl_sp_sum (m pv : ℤ) (ids : List ℕ) (sp so : List ℤ) (w : ℤ)
    (hids : ∀ i ∈ ids, i < sp.length) :
    (updateStatsLoop m pv ids sp so w).sp.sum
      = sp.sum + (updateStatsLoop m pv ids sp so w).td := by
  induction ids generalizing sp so w with
  | nil => simp [updateStatsLoop]
  | cons a rest ih =>
    have ha : a < sp.length := hids a (by simp)
    have hrest : ∀ i ∈ rest, i < (sp.set a (sp.getD a 0 * 2)).length := by
      intro i hi
      simpa using hids i (by simp [hi])
    have h2 := ih (sp.set a (sp.getD a 0 * 2)) (so.set a 0)
      (if sp.getD a 0 * 2 = m ∧ w = -1 then pv else w) hrest
    simp only [updateStatsLoop] at h2 ⊢
    rw [h2, sum_set_int sp a _ ha]
    ring

theorem usl_so_sum (m pv : ℤ) (ids : List ℕ) (sp so : List ℤ) (w : ℤ)
    (hids : ∀ i ∈ ids, i < so.length) :
    (updateStatsLoop m pv ids sp so w).so.sum
      = so.sum - (updateStatsLoop m pv ids sp so w).od := by
  induction ids generalizing sp so w with
  | nil => simp [updateStatsLoop]
  | cons a rest ih =>
    have ha : a < so.length := hids a (by simp)
    have hrest : ∀ i ∈ rest, i < (so.set a 0).length := by
      intro i hi
      simpa using hids i (by simp [hi])
    have h2 := ih (sp.set a (sp.getD a 0 * 2)) (so.set a 0)
      (if sp.getD a 0 * 2 = m ∧ w = -1 then pv else w) hrest
    simp only [updateStatsLoop] at h2 ⊢
    rw [h2, sum_set_int so a _ ha]
    ring

theorem usl_pair (m pv : ℤ) (ids : List ℕ) (sp so : List ℤ) (w : ℤ)
    (hP : PairOk sp so) :
    PairOk (updateStatsLoop m pv ids sp so w).sp (updateStatsLoop m pv ids sp so w).so := by
  induction ids generalizing sp so w with
  | nil => simpa [updateStatsLoop]
  | cons a rest ih =>
    have hP2 : PairOk (sp.set a (sp.getD a 0 * 2)) (so.set a 0) := by
      intro i
      rcases eq_or_ne i a with rfl | hne
      · right; left
        exact getD_set_zero_int so i
      · rw [getD_set_ne_int sp hne.symm, getD_set_ne_int so hne.symm]
        exact hP i
    simpa [updateStatsLoop] using ih _ _ _ hP2

theorem usl_winner (m pv : ℤ) (ids : List ℕ) (sp so : List ℤ) (w : ℤ) :
    (updateStatsLoop m pv ids sp so w).winner = w
      ∨ (updateStatsLoop m pv ids sp so w).winner = pv := by
  induction ids generalizing sp so w with
  | nil => left; rfl
  | cons a rest ih =>
    have h2 := ih (sp.set a (sp.getD a 0 * 2)) (so.set a 0)
      (if sp.getD a 0 * 2 = m ∧ w = -1 then pv else w)
    simp only [updateStatsLoop]
    rcases h2 with h2 | h2 <;> rw [h2]
    · split <;> simp
    · simp

theorem mapAt_lt (cfg : Cfg) (x y : ℕ) :
    ∀ w ∈ mapAt cfg x y, w < linesCount cfg := by
  intro w hw
  simp only [mapAt, List.mem_map] at hw
  obtain ⟨pr, hpr, rfl⟩ := hw
  exact List.fst_lt_of_mem_enum (List.mem_of_mem_filter hpr)

theorem mapAt_nodup (cfg : Cfg) (x y : ℕ) :
    (mapAt cfg x y).Nodup := by
  refine List.Sublist.nodup ?_ (List.nodup_range (allLines cfg).length)
  have h := (List.filter_sublist ((allLines cfg).enum)
    (p := fun p => decide ((x, y) ∈ p.2))).map Prod.fst
  rwa [List.enum_map_fst] at h

theorem inv_init (cfg : Cfg) (hv : Valid cfg) : StateInv cfg (initState cfg) := by
  have hwp : findWinningPlaces cfg = (wpNat cfg : ℤ) := by
    rw [wpNat_eq_linesCount cfg hv]
    exact findWinningPlaces_eq_linesCount cfg hv
  refine ⟨?_, ?_, ?_, ?_, ?_, ?_, ?_, ?_, ?_, ?_⟩
  · simp [initState]
  · intro col hcol
    rw [List.eq_of_mem_replicate hcol]
    simp
  · intro col hcol v hv2
    rw [List.eq_of_mem_replicate hcol] at hv2
    left
    exact List.eq_of_mem_replicate hv2
  · simp [initState]
  · simp [initState]
  · simp [initState, List.sum_replicate, hwp]
  · simp [initState, List.sum_replicate, hwp]
  · intro i
    rcases lt_or_le i (wpNat cfg) with h | h
    · right; right
      constructor <;>
        simp [initState, List.getD_eq_getElem?_getD, List.getElem?_replicate, h]
    · left
      simp only [initState]
      exact getD_oor_int _ (by simpa using h)
  · simp [initState, occupiedCount, occCol, List.filter_replicate]
  · left; rfl

theorem findRow_le (col : List ℤ) (rows : ℕ) : findRow col rows ≤ rows := by
  unfold findRow
  cases h : (List.range rows).find? (fun r => col.getD r 0 = -1) with
  | none => exact le_refl rows
  | some r =>
    have hr := List.mem_of_find?_eq_some h
    simp only [List.mem_range] at hr
    exact Nat.le_of_lt hr

theorem findRow_lt (col : List ℤ) (rows : ℕ) (h : findRow col rows ≠ rows) :
    findRow col rows < rows :=
  lt_of_le_of_ne (findRow_le col rows) h

theorem findRow_empty (col : List ℤ) (rows : ℕ) (h : findRow col rows ≠ rows) :
    col.getD (findRow col rows) 0 = -1 := by
  unfold findRow at h ⊢
  cases hf : (List.range rows).find? (fun r => col.getD r 0 = -1) with
  | none =>
    rw [hf] at h
    exact absurd rfl h
  | some r =>
    have h2 := List.find?_some hf
    exact of_decide_eq_true h2

theorem findRow_full (col : List ℤ) (rows : ℕ) (h : ∀ r < rows, col.getD r 0 ≠ -1) :
    findRow col rows = rows := by
  unfold findRow
  have hf : (List.range rows).find? (fun r => col.getD r 0 = -1) = none := by
    rw [List.find?_eq_none]
    intro x hx
    rw [List.mem_range] at hx
    simpa using h x hx
  rw [hf]
  rfl

theorem dropPiece_fail (cfg : Cfg) (p c : ℕ) (s : GameState)
    (h : findRow (s.board.getD c []) cfg.rows = cfg.rows) :
    dropPiece cfg p c s = (-1, s) := by
  simp only [dropPiece]
  rw [if_pos h]

theorem dropPiece_succ (cfg : Cfg) (p c : ℕ) (s : GameState)
    (h : findRow (s.board.getD c []) cfg.rows ≠ cfg.rows) :
    dropPiece cfg p c s =
      (((findRow (s.board.getD c []) cfg.rows : ℕ) : ℤ),
        updateScore cfg p c (findRow (s.board.getD c []) cfg.rows)
          { s with
            board := s.board.set c
              ((s.board.getD c []).set (findRow (s.board.getD c []) cfg.rows) (p : ℤ))
            numberOfPieces := s.numberOfPieces + 1 }) := by
  simp only [dropPiece]
  rw [if_neg h]

theorem updateScore_eq_flags (cfg : Cfg) (p x y : ℕ) (s : GameState) :
    ∃ t g, updateScore cfg p x y s
      = { updateScoreCore cfg p x y s with tie := t, gameOver := g } := by
  simp only [updateScore]
  split
  · exact ⟨_, _, rfl⟩
  · exact ⟨(updateScoreCore cfg p x y s).tie, (updateScoreCore cfg p x y s).gameOver, rfl⟩

theorem inv_flags (cfg : Cfg) (s : GameState) (t g : Bool) (h : StateInv cfg s) :
    StateInv cfg { s with tie := t, gameOver := g } :=
  ⟨h.boardLen, h.colLen, h.cellsOk, h.stats0Len, h.stats1Len, h.score0Eq, h.score1Eq,
    h.statsPair, h.countEq, h.winnerOk⟩

theorem pairOk_symm {a b : List ℤ} (h : PairOk a b) : PairOk b a := by
  intro i
  rcases h i with h1 | h1 | ⟨h1, h2⟩
  · right; left; exact h1
  · left; exact h1
  · right; right; exact ⟨h2, h1⟩

theorem inv_boardStep (cfg : Cfg) {s : GameState} (hInv : StateInv cfg s)
    {p c : ℕ} (hp : p < 2) (hc : c < cfg.cols)
    (hrow : findRow (s.board.getD c []) cfg.rows ≠ cfg.rows) :
    StateInv cfg
      { s with
        board := s.board.set c
          ((s.board.getD c []).set (findRow (s.board.getD c []) cfg.rows) (p : ℤ))
        numberOfPieces := s.numberOfPieces + 1 } := by
  have hclen : c < s.board.length := by rw [hInv.boardLen]; exact hc
  have hmem : s.board.getD c [] ∈ s.board := by
    have hg : s.board.getD c [] = s.board[c] := by
      rw [List.getD_eq_getElem?_getD, List.getElem?_eq_getElem hclen]
      rfl
    rw [hg]
    exact List.getElem_mem hclen
  have hcollen : (s.board.getD c []).length = cfg.rows := hInv.colLen _ hmem
  have hrlt : findRow (s.board.getD c []) cfg.rows < cfg.rows :=
    lt_of_le_of_ne (findRow_le _ _) hrow
  have hrcol : findRow (s.board.getD c []) cfg.rows < (s.board.getD c []).length := by
    omega
  have hempty : (s.board.getD c []).getD (findRow (s.board.getD c []) cfg.rows) 0 = -1 :=
    findRow_empty _ _ hrow
  have hpne : ((p : ℕ) : ℤ) ≠ -1 := by omega
  refine ⟨?_, ?_, ?_, hInv.stats0Len, hInv.stats1Len, hInv.score0Eq, hInv.score1Eq,
    hInv.statsPair, ?_, hInv.winnerOk⟩
  · simpa using hInv.boardLen
  · intro col2 hcol2
    rcases List.mem_or_eq_of_mem_set hcol2 with h2 | h2
    · exact hInv.colLen col2 h2
    · rw [h2]
      simpa using hcollen
  · intro col2 hcol2 v hv2
    rcases List.mem_or_eq_of_mem_set hcol2 with h2 | h2
    · exact hInv.cellsOk col2 h2 v hv2
    · rw [h2] at hv2
      rcases List.mem_or_eq_of_mem_set hv2 with h3 | h3
      · exact hInv.cellsOk _ hmem v h3
      · interval_cases p
        · right; left; simpa using h3
        · right; right; simpa using h3
  · have hocc : occupiedCount
        { s with
          board := s.board.set c
            ((s.board.getD c []).set (findRow (s.board.getD c []) cfg.rows) (p : ℤ))
          numberOfPieces := s.numberOfPieces + 1 }
        = occupiedCount s + 1 := by
      simp only [occupiedCount, List.map_set]
      have h1 := sum_set_nat (s.board.map occCol) c
        (occCol ((s.board.getD c []).set (findRow (s.board.getD c []) cfg.rows) (p : ℤ)))
        (by simpa using hclen)
      have h2 : (s.board.map occCol).getD c 0 = occCol (s.board.getD c []) :=
        getD_map_occ s.board hclen
      have h3 : occCol ((s.board.getD c []).set (findRow (s.board.getD c []) cfg.rows) (p : ℤ))
          = occCol (s.board.getD c []) + 1 :=
        occCol_set _ _ _ hrcol hempty hpne
      omega
    rw [hocc]
    show s.numberOfPieces + 1 = occupiedCount s + 1
    rw [hInv.countEq]

theorem core_fields0 (cfg : Cfg) (x y : ℕ) (s : GameState) :
    updateScoreCore cfg 0 x y s
      = { s with
          stats0 := (updateStatsLoop (magic cfg) 0 (mapAt cfg x y) s.stats0 s.stats1 s.winner).sp
          stats1 := (updateStatsLoop (magic cfg) 0 (mapAt cfg x y) s.stats0 s.stats1 s.winner).so
          score0 := s.score0
            + (updateStatsLoop (magic cfg) 0 (mapAt cfg x y) s.stats0 s.stats1 s.winner).td
          score1 := s.score1
            - (updateStatsLoop (magic cfg) 0 (mapAt cfg x y) s.stats0 s.stats1 s.winner).od
          winner := (updateStatsLoop (magic cfg) 0 (mapAt cfg x y) s.stats0 s.stats1 s.winner).winner } := by
  simp [updateScoreCore, statsOf, (show (0 ^^^ 1 : ℕ) = 1 from rfl)]

theorem core_fields1 (cfg : Cfg) (x y : ℕ) (s : GameState) :
    updateScoreCore cfg 1 x y s
      = { s with
          stats0 := (updateStatsLoop (magic cfg) 1 (mapAt cfg x y) s.stats1 s.stats0 s.winner).so
          stats1 := (updateStatsLoop (magic cfg) 1 (mapAt cfg x y) s.stats1 s.stats0 s.winner).sp
          score0 := s.score0
            - (updateStatsLoop (magic cfg) 1 (mapAt cfg x y) s.stats1 s.stats0 s.winner).od
          score1 := s.score1
            + (updateStatsLoop (magic cfg) 1 (mapAt cfg x y) s.stats1 s.stats0 s.winner).td
          winner := (updateStatsLoop (magic cfg) 1 (mapAt cfg x y) s.stats1 s.stats0 s.winner).winner } := by
  simp [updateScoreCore, statsOf, (show (1 ^^^ 1 : ℕ) = 0 from rfl)]

theorem inv_updateScoreCore (cfg : Cfg) (hv : Valid cfg) {s : GameState}
    (hInv : StateInv cfg s) {p : ℕ} (hp : p < 2) (x y : ℕ) :
    StateInv cfg (updateScoreCore cfg p x y s) := by
  have hb0 : ∀ i ∈ mapAt cfg x y, i < s.stats0.length := by
    intro i hi
    rw [hInv.stats0Len, wpNat_eq_linesCount cfg hv]
    exact mapAt_lt cfg x y i hi
  have hb1 : ∀ i ∈ mapAt cfg x y, i < s.stats1.length := by
    intro i hi
    rw [hInv.stats1Len, wpNat_eq_linesCount cfg hv]
    exact mapAt_lt cfg x y i hi
  interval_cases p
  · rw [core_fields0]
    refine ⟨hInv.boardLen, hInv.colLen, hInv.cellsOk, ?_, ?_, ?_, ?_, ?_, hInv.countEq, ?_⟩
    · rw [usl_sp_length, hInv.stats0Len]
    · rw [usl_so_length, hInv.stats1Len]
    · rw [usl_sp_sum _ _ _ _ _ _ hb0, hInv.score0Eq]
    · rw [usl_so_sum _ _ _ _ _ _ hb1, hInv.score1Eq]
    · exact usl_pair _ _ _ _ _ _ hInv.statsPair
    · rcases usl_winner (magic cfg) 0 (mapAt cfg x y) s.stats0 s.stats1 s.winner with h | h
      · rw [h]; exact hInv.winnerOk
      · rw [h]; right; left; rfl
  · rw [core_fields1]
    refine ⟨hInv.boardLen, hInv.colLen, hInv.cellsOk, ?_, ?_, ?_, ?_, ?_, hInv.countEq, ?_⟩
    · rw [usl_so_length, hInv.stats0Len]
    · rw [usl_sp_length, hInv.stats1Len]
    · rw [usl_so_sum _ _ _ _ _ _ hb0, hInv.score0Eq]
    · rw [usl_sp_sum _ _ _ _ _ _ hb1, hInv.score1Eq]
    · exact pairOk_symm (usl_pair _ _ _ _ _ _ (pairOk_symm hInv.statsPair))
    · rcases usl_winner (magic cfg) 1 (mapAt cfg x y) s.stats1 s.stats0 s.winner with h | h
      · rw [h]; exact hInv.winnerOk
      · rw [h]; right; right; rfl

theorem inv_drop (cfg : Cfg) (hv : Valid cfg) {s : GameState} (hInv : StateInv cfg s)
    {p c : ℕ} (hp : p < 2) (hc : c < cfg.cols) :
    StateInv cfg (dropPiece cfg p c s).2 := by
  by_cases hrow : findRow (s.board.getD c []) cfg.rows = cfg.rows
  · rw [dropPiece_fail cfg p c s hrow]
    exact hInv
  · rw [dropPiece_succ cfg p c s hrow]
    obtain ⟨t, g, hflag⟩ := updateScore_eq_flags cfg p c (findRow (s.board.getD c []) cfg.rows)
      { s with
        board := s.board.set c
          ((s.board.getD c []).set (findRow (s.board.getD c []) cfg.rows) (p : ℤ))
        numberOfPieces := s.numberOfPieces + 1 }
    show StateInv cfg (updateScore cfg p c (findRow (s.board.getD c []) cfg.rows) _)
    rw [hflag]
    exact inv_flags _ _ _ _
      (inv_updateScoreCore cfg hv (inv_boardStep cfg hInv hp hc hrow) hp c _)

theorem reachable_inv (cfg : Cfg) (hv : Valid cfg) {s : GameState}
    (h : Reachable cfg s) : StateInv cfg s := by
  induction h with
  | init => exact inv_init cfg hv
  | step p c s hr hp hc ih => exact inv_drop cfg hv ih hp hc

theorem occupied_le (cfg : Cfg) {s : GameState} (hInv : StateInv cfg s) :
    occupiedCount s ≤ cfg.cols * cfg.rows := by
  have hb : ∀ x ∈ s.board.map occCol, x ≤ cfg.rows := by
    intro x hx
    simp only [List.mem_map] at hx
    obtain ⟨col, hcol, rfl⟩ := hx
    calc occCol col ≤ col.length := List.length_filter_le _ _
    _ = cfg.rows := hInv.colLen col hcol
  have h2 := List.sum_le_card_nsmul _ _ hb
  simpa [occupiedCount, hInv.boardLen, smul_eq_mul, mul_comm] using h2

theorem usl_td_eq (m pv : ℤ) (ids : List ℕ) (sp so : List ℤ) (w : ℤ)
    (hnd : ids.Nodup) :
    (updateStatsLoop m pv ids sp so w).td = (ids.map (fun i => sp.getD i 0)).sum := by
  induction ids generalizing sp so w with
  | nil => simp [updateStatsLoop]
  | cons a rest ih =>
    have hna : a ∉ rest := by
      have := List.nodup_cons.mp hnd
      exact this.1
    have h2 := ih (sp.set a (sp.getD a 0 * 2)) (so.set a 0)
      (if sp.getD a 0 * 2 = m ∧ w = -1 then pv else w) (List.nodup_cons.mp hnd).2
    have h3 : (rest.map (fun i => (sp.set a (sp.getD a 0 * 2)).getD i 0)).sum
        = (rest.map (fun i => sp.getD i 0)).sum := by
      congr 1
      refine List.map_congr_left ?_
      intro i hi
      exact getD_set_ne_int sp (fun hh => hna (by rw [hh]; exact hi)) _
    simp only [updateStatsLoop, List.map_cons, List.sum_cons]
    rw [h2, h3]
    ring

theorem usl_od_eq (m pv : ℤ) (ids : List ℕ) (sp so : List ℤ) (w : ℤ)
    (hnd : ids.Nodup) :
    (updateStatsLoop m pv ids sp so w).od = (ids.map (fun i => so.getD i 0)).sum := by
  induction ids generalizing sp so w with
  | nil => simp [updateStatsLoop]
  | cons a rest ih =>
    have hna : a ∉ rest := (List.nodup_cons.mp hnd).1
    have h2 := ih (sp.set a (sp.getD a 0 * 2)) (so.set a 0)
      (if sp.getD a 0 * 2 = m ∧ w = -1 then pv else w) (List.nodup_cons.mp hnd).2
    have h3 : (rest.map (fun i => (so.set a 0).getD i 0)).sum
        = (rest.map (fun i => so.getD i 0)).sum := by
      congr 1
      refine List.map_congr_left ?_
      intro i hi
      exact getD_set_ne_int so (fun hh => hna (by rw [hh]; exact hi)) _
    simp only [updateStatsLoop, List.map_cons, List.sum_cons]
    rw [h2, h3]
    ring

/-- C4: for every width, height and connect length that satisfy the caller
contract (`≥ 1` each), the closed-form `_findWinningPlaces` total (with its
degenerate branches for dimensions below the connect length) equals the
number of line ids assigned by the explicit four-pass enumeration of
`_setupMap` over horizontal, vertical, forward-diagonal and
backward-diagonal runs. -/
theorem claim_C4_total_lines (cfg : Cfg) (hv : Valid cfg) :
    findWinningPlaces cfg = (linesCount cfg : ℤ) :=
  findWinningPlaces_eq_linesCount cfg hv

theorem claim_C4_witness :
    findWinningPlaces ⟨7, 6, 4⟩ = (linesCount ⟨7, 6, 4⟩ : ℤ) ∧ linesCount ⟨7, 6, 4⟩ = 69 :=
  ⟨claim_C4_total_lines ⟨7, 6, 4⟩ (by decide), by decide⟩

/-- C5: in every reachable state, dropping any player's piece into a full
column of the board (every row occupied) returns the failure row `-1` and
leaves the state — board, scores, potential arrays, winner and piece
count — completely unchanged. -/
theorem claim_C5_full_column_drop (cfg : Cfg) (hv : Valid cfg) {s : GameState}
    (hreach : Reachable cfg s) (p c : ℕ)
    (hfull : ∀ r < cfg.rows, boardCell s c r ≠ -1) :
    dropPiece cfg p c s = (-1, s) := by
  apply dropPiece_fail
  apply findRow_full
  intro r hr
  exact hfull r hr

theorem claim_C5_witness : dropPiece cfg1 1 0 sFull = (-1, sFull) :=
  claim_C5_full_column_drop cfg1 (by decide)
    (Reachable.step 0 0 _ Reachable.init (by decide) (by decide)) 1 0 (by decide)

/-- C6: in every reachable state, each player's aggregate score equals the
sum of that player's per-line potential array, and at every line at least
one of the two players' potential entries is `0` unless both are exactly
`1` (the uncontested initial value). -/
theorem claim_C6_score_invariant (cfg : Cfg) (hv : Valid cfg) {s : GameState}
    (hreach : Reachable cfg s) :
    s.score0 = s.stats0.sum ∧ s.score1 = s.stats1.sum ∧ PairOk s.stats0 s.stats1 := by
  have hInv := reachable_inv cfg hv hreach
  exact ⟨hInv.score0Eq, hInv.score1Eq, hInv.statsPair⟩

theorem claim_C6_witness : afterCenterDrop.score0 = afterCenterDrop.stats0.sum :=
  (claim_C6_score_invariant cfg7 (by decide)
    (Reachable.step 0 3 _ Reachable.init (by decide) (by decide))).1

/-- C7: in every reachable state, `isTie()` returns `true` exactly when the
piece count equals `cols * rows` and no winner has been recorded (the
source tests `numberOfPieces >= cols * rows`, which on reachable states is
equivalent to equality since the piece count never exceeds the board
size). -/
theorem claim_C7_isTie_iff (cfg : Cfg) (hv : Valid cfg) {s : GameState}
    (hreach : Reachable cfg s) :
    isTie cfg s = true ↔ (s.numberOfPieces = cfg.cols * cfg.rows ∧ s.winner = -1) := by
  have hInv := reachable_inv cfg hv hreach
  have hle : s.numberOfPieces ≤ cfg.cols * cfg.rows := by
    rw [hInv.countEq]
    exact occupied_le cfg hInv
  unfold isTie
  simp only [decide_eq_true_eq]
  constructor
  · rintro ⟨h1, h2⟩
    exact ⟨le_antisymm hle h2, h1⟩
  · rintro ⟨h1, h2⟩
    exact ⟨h2, le_of_eq h1.symm⟩

theorem claim_C7_witness :
    isTie cfg12 sTie = true ↔ (sTie.numberOfPieces = cfg12.cols * cfg12.rows ∧ sTie.winner = -1) :=
  claim_C7_isTie_iff cfg12 (by decide)
    (Reachable.step 1 0 _ (Reachable.step 0 0 _ Reachable.init (by decide) (by decide))
      (by decide) (by decide))

theorem applyDrops_cons (cfg : Cfg) (moves : List (ℕ × ℕ)) (x : GameState)
    (t : List GameState) :
    applyDrops cfg moves (x :: t) = runDrops cfg moves x :: t := by
  induction moves generalizing x with
  | nil => rfl
  | cons m ms ih =>
    simp only [applyDrops, runDrops, List.foldl_cons] at ih ⊢
    exact ih _

/-- C10: pushing the current state, performing any sequence of drops on the
new top, and popping restores the stack — and hence the caller-observable
current state with all its fields — to exactly what it was before the
push; mutations of the pushed copy never reach the states beneath it. -/
theorem claim_C10_push_drop_pop (cfg : Cfg) (moves : List (ℕ × ℕ)) (s : GameState)
    (rest : List GameState) :
    popState (applyDrops cfg moves (pushState (s :: rest))) = s :: rest := by
  show popState (applyDrops cfg moves (cloneState s :: s :: rest)) = s :: rest
  rw [applyDrops_cons]
  rfl

theorem boardCell_ne_two (cfg : Cfg) {s : GameState} (hInv : StateInv cfg s) (x y : ℕ) :
    boardCell s x y ≠ 2 := by
  unfold boardCell
  rcases lt_or_le x s.board.length with hx | hx
  · have hg : s.board.getD x [] = s.board[x] := by
      rw [List.getD_eq_getElem?_getD, List.getElem?_eq_getElem hx]
      rfl
    have hcol : s.board.getD x [] ∈ s.board := by
      rw [hg]
      exact List.getElem_mem hx
    rcases lt_or_le y (s.board.getD x []).length with hy | hy
    · have hgv : (s.board.getD x []).getD y 0 = (s.board.getD x [])[y] := by
        rw [List.getD_eq_getElem?_getD, List.getElem?_eq_getElem hy]
        rfl
      have hval : (s.board.getD x []).getD y 0 ∈ s.board.getD x [] := by
        rw [hgv]
        exact List.getElem_mem hy
      rcases hInv.cellsOk _ hcol _ hval with h | h | h <;> rw [h] <;> decide
    · rw [getD_oor_int _ hy]
      decide
  · have hempty : s.board.getD x [] = [] := by
      rw [List.getD_eq_getElem?_getD, List.getElem?_eq_none hx]
      rfl
    rw [hempty]
    simp

/-- C2 counterexample: on the standard board, after player 0 has opened in
the center column (a reachable state with one piece and the bottom-center
cell occupied), the opening shortcut of `autoMove` still fires — the code
compares `board[3][0]` against `2` (the C sentinel), never against the
port's empty marker `-1`, so the claimed "bottom cell unoccupied"
condition does not hold while the shortcut does. -/
theorem claim_C2_counterexample :
    autoMoveShortcut cfg7 afterCenterDrop = true
      ∧ ¬ (afterCenterDrop.numberOfPieces ≤ 1 ∧ boardCell afterCenterDrop 3 0 = -1) := by
  decide

/-- C2 as amended: for reachable states the shortcut fires exactly when the
board is the standard 7-by-6 connect-4 configuration and fewer than two
pieces have been played; the `board[3][0] !== 2` test is vacuous (cells are
only ever `-1`, `0` or `1`), so the bottom-center occupancy plays no role.
For any other geometry the shortcut never fires. -/
theorem claim_C2_amended_shortcut (cfg : Cfg) (hv : Valid cfg) {s : GameState}
    (hreach : Reachable cfg s) :
    autoMoveShortcut cfg s = true ↔
      (s.numberOfPieces < 2 ∧ cfg.cols = 7 ∧ cfg.rows = 6 ∧ cfg.connect = 4) := by
  have hInv := reachable_inv cfg hv hreach
  have hcell := boardCell_ne_two cfg hInv 3 0
  unfold autoMoveShortcut
  simp only [decide_eq_true_eq]
  constructor
  · rintro ⟨h1, h2, h3, h4, _⟩
    exact ⟨h1, h2, h3, h4⟩
  · rintro ⟨h1, h2, h3, h4⟩
    exact ⟨h1, h2, h3, h4, Or.inr hcell⟩

theorem claim_C2_witness :
    autoMoveShortcut cfg7 afterCenterDrop = true ↔
      (afterCenterDrop.numberOfPieces < 2 ∧ cfg7.cols = 7 ∧ cfg7.rows = 6 ∧ cfg7.connect = 4) :=
  claim_C2_amended_shortcut cfg7 (by decide)
    (Reachable.step 0 3 _ Reachable.init (by decide) (by decide))

/-- C8: the JavaScript win valuation `Number.MAX_VALUE - depth` evaluates,
in binary64 arithmetic, to exactly `Number.MAX_VALUE` at every search
depth (the unit-in-the-last-place near the top of the double range is
`2^971`, so subtracting a depth of at most `20` rounds back to the
minuend): wins at depths 2 and 3 receive the same value, and the claimed
strict preference for shallower wins fails. The C original's
`INT_MAX - depth` is exact; the port lost the depth term to rounding. -/
theorem claim_C8_win_value :
    jsWinValue 2 = jsWinValue 3 ∧ jsWinValue 2 = jsMaxValue ∧ ¬ jsWinValue 3 < jsWinValue 2 := by
  decide

theorem dropOrderJS_two : dropOrderJS 2 = [1/2, 3/2] := by
  norm_num [dropOrderJS, dropOrderAux]

theorem dropOrderJS_seven : dropOrderJS 7 = [3, 4, 2, 5, 1, 6, 0] := by
  norm_num [dropOrderJS, dropOrderAux]

theorem dropOrderJS_three : dropOrderJS 3 = [1, 2, 0] := by
  norm_num [dropOrderJS, dropOrderAux]

/-- C9: evaluating the drop-order construction at the failing width 2: the
JavaScript `(cols-1)/2` is real division, so the candidate sequence is
`[1/2, 3/2]` — no entry is one of the valid column indices `0`, `1`, hence
the sequence is not a permutation of them — while the vendored C
original's integer division yields `[0, 1]`, a permutation, as the claim
states. At the standard (odd) width 7 the JavaScript order
`[3, 4, 2, 5, 1, 6, 0]` does permute the columns. -/
theorem claim_C9_drop_order :
    dropOrderJS 2 = [1/2, 3/2]
      ∧ (∀ q ∈ dropOrderJS 2, q ∉ ([0, 1] : List ℚ))
      ∧ dropOrderC 2 = [0, 1]
      ∧ (dropOrderC 2).Perm [0, 1]
      ∧ dropOrderJS 7 = [3, 4, 2, 5, 1, 6, 0]
      ∧ (dropOrderC 7).Perm [0, 1, 2, 3, 4, 5, 6]
      ∧ dropOrderJS 7 = (dropOrderC 7).map (fun z => (z : ℚ)) := by
  refine ⟨dropOrderJS_two, ?_, by decide, by decide, dropOrderJS_seven, by decide, ?_⟩
  · rw [dropOrderJS_two]
    intro q hq
    simp only [List.mem_cons, List.not_mem_nil, or_false] at hq ⊢
    rcases hq with rfl | rfl <;> norm_num
  · rw [dropOrderJS_seven]
    norm_num [dropOrderC, dropOrderCAux]

theorem jsMaxValue_eq : jsMaxValue = (2 ^ 53 - 1) * 2 ^ 971 := by
  norm_num [jsMaxValue]

theorem topUlp_eq : topUlp = 2 ^ 971 := by
  norm_num [topUlp]

/-- C1 counterexample: on the standard 7-by-6 connect-4 board, after the
(alternating, reachable) sequence of drops that gives player 0 three in a
row on the bottom and player 1 two harmless pieces, player 1's successful
blocking drop into column 3 strictly decreases `score[0] + score[1]`: the
drop zeroes player 0's high potentials (8, 4, 2) on the three horizontal
lines it blocks while only doubling 1-valued potentials of player 1. -/
theorem claim_C1_counterexample :
    (dropPiece cfg7 1 3 beforeBlock).1 = 0
      ∧ scoreSum afterBlock < scoreSum beforeBlock := by
  decide

/-- C1 as amended: a successful drop changes `score[0] + score[1]` by
exactly `thisDiff - otherDiff`, the sum over the lines through the landed
cell of the dropping player's pre-drop potential minus the opponent's
pre-drop potential; this quantity can be negative (the counterexample
realizes `-14`), so the sum is not monotone. -/
theorem claim_C1_amended_score_sum (cfg : Cfg) {s : GameState} {p c : ℕ} (hp : p < 2)
    (hrow : (dropPiece cfg p c s).1 ≠ -1) :
    scoreSum (dropPiece cfg p c s).2
      = scoreSum s
        + ((mapAt cfg c (findRow (s.board.getD c []) cfg.rows)).map
            (fun w => (statsOf s p).getD w 0)).sum
        - ((mapAt cfg c (findRow (s.board.getD c []) cfg.rows)).map
            (fun w => (statsOf s (p ^^^ 1)).getD w 0)).sum := by
  have hfr : findRow (s.board.getD c []) cfg.rows ≠ cfg.rows := by
    intro h
    rw [dropPiece_fail cfg p c s h] at hrow
    exact hrow rfl
  rw [dropPiece_succ cfg p c s hfr]
  obtain ⟨t, g, hflag⟩ := updateScore_eq_flags cfg p c (findRow (s.board.getD c []) cfg.rows)
    { s with
      board := s.board.set c
        ((s.board.getD c []).set (findRow (s.board.getD c []) cfg.rows) (p : ℤ))
      numberOfPieces := s.numberOfPieces + 1 }
  show scoreSum (updateScore cfg p c (findRow (s.board.getD c []) cfg.rows) _) = _
  rw [hflag]
  interval_cases p
  · rw [core_fields0]
    simp only [scoreSum, statsOf, if_pos rfl]
    rw [usl_td_eq _ _ _ _ _ _ (mapAt_nodup cfg c _), usl_od_eq _ _ _ _ _ _ (mapAt_nodup cfg c _)]
    show s.score0
        + ((mapAt cfg c (findRow (s.board.getD c []) cfg.rows)).map
            (fun w => s.stats0.getD w 0)).sum
        + (s.score1
          - ((mapAt cfg c (findRow (s.board.getD c []) cfg.rows)).map
              (fun w => s.stats1.getD w 0)).sum)
      = _
    simp only [(show (0 ^^^ 1 : ℕ) = 1 from rfl), if_neg one_ne_zero, eq_self_iff_true, if_true]
    ring
  · rw [core_fields1]
    simp only [scoreSum, statsOf, if_neg one_ne_zero]
    rw [usl_td_eq _ _ _ _ _ _ (mapAt_nodup cfg c _), usl_od_eq _ _ _ _ _ _ (mapAt_nodup cfg c _)]
    show s.score0
        - ((mapAt cfg c (findRow (s.board.getD c []) cfg.rows)).map
            (fun w => s.stats0.getD w 0)).sum
        + (s.score1
          + ((mapAt cfg c (findRow (s.board.getD c []) cfg.rows)).map
              (fun w => s.stats1.getD w 0)).sum)
      = _
    simp only [(show (1 ^^^ 1 : ℕ) = 0 from rfl), eq_self_iff_true, if_true, if_neg one_ne_zero]
    ring

theorem claim_C1_witness :
    scoreSum (dropPiece cfg7 1 3 beforeBlock).2
      = scoreSum beforeBlock
        + ((mapAt cfg7 3 (findRow (beforeBlock.board.getD 3 []) cfg7.rows)).map
            (fun w => (statsOf beforeBlock 1).getD w 0)).sum
        - ((mapAt cfg7 3 (findRow (beforeBlock.board.getD 3 []) cfg7.rows)).map
            (fun w => (statsOf beforeBlock (1 ^^^ 1)).getD w 0)).sum :=
  claim_C1_amended_score_sum cfg7 (by decide) (by decide)

/-- C3 counterexample: on the 3-wide connect-3 board with search level 2,
all three candidate columns are exactly equally good (goodness 2), yet the
root loop of `autoMove` selects the first candidate (column 1) in exactly
1 of the 4 equally likely outcomes of its two coin flips — probability
1/4, and the distribution over the three tied candidates is
(1/4, 1/4, 1/2), not the claimed uniform 1/3: no running tie count exists
and each tie is decided by a fresh fair coin. -/
theorem claim_C3_counterexample :
    (goodnessOf (dropPiece cfg3 0 1 (initState cfg3)).2 0 = 2
      ∧ goodnessOf (dropPiece cfg3 0 2 (initState cfg3)).2 0 = 2
      ∧ goodnessOf (dropPiece cfg3 0 0 (initState cfg3)).2 0 = 2)
    ∧ (autoMoveColumn cfg3 0 2 (initState cfg3) [false, false] = 1
      ∧ autoMoveColumn cfg3 0 2 (initState cfg3) [false, true] = 0
      ∧ autoMoveColumn cfg3 0 2 (initState cfg3) [true, false] = 2
      ∧ autoMoveColumn cfg3 0 2 (initState cfg3) [true, true] = 0)
    ∧ 3 * ((Finset.univ : Finset (Bool × Bool)).filter
        (fun cp => autoMoveColumn cfg3 0 2 (initState cfg3) [cp.1, cp.2] = 1)).card
      ≠ ((Finset.univ : Finset (Bool × Bool))).card := by
  decide

/-- C3 as amended: when a candidate's goodness exactly equals the current
best and a best column already exists, the root loop of `autoMove` keeps
no running count of ties; it replaces the current best column exactly when
a fresh fair coin (`Math.floor(Math.random()*2) > 0`) comes up true —
probability 1/2 regardless of how many candidates have tied so far. (The
vendored C original instead implements the claimed
`1/num_of_equal` reservoir policy.) -/
theorem claim_C3_amended_tie_break (cfg : Cfg) (player ai : ℕ) (s : GameState)
    (rest : List ℕ) (c : ℕ) (bestColumn bestWorst : ℤ) (coin : Bool) (coins : List Bool)
    (h1 : ¬ (dropPiece cfg player c s).1 < 0)
    (h2 : ¬ (dropPiece cfg player c s).2.winner = ((player : ℕ) : ℤ))
    (h3 : evaluate cfg (evalFuel cfg) player ai (-jsMaxValue) (-bestWorst) 2
      (dropPiece cfg player c s).2 = bestWorst)
    (h4 : ¬ bestColumn = -1) :
    rootLoop cfg player ai s (c :: rest) bestColumn bestWorst (coin :: coins)
      = rootLoop cfg player ai s rest (if coin then (c : ℤ) else bestColumn)
          bestWorst coins := by
  simp only [rootLoop]
  rw [if_neg h1, if_neg h2, h3, if_neg (lt_irrefl bestWorst), if_pos rfl, if_neg h4]

theorem claim_C3_witness :
    rootLoop cfg3 0 2 (initState cfg3) [0] 1 2 [true]
      = rootLoop cfg3 0 2 (initState cfg3) [] (if true then (0 : ℤ) else 1) 2 [] :=
  claim_C3_amended_tie_break cfg3 0 2 (initState cfg3) [] 0 1 2 true []
    (by decide) (by decide) (by decide) (by decide)
